import Mathlib

/-!
Shallow embedding of the spider-web backtest engine
(`src/backtest_engine.py`, class `SpiderWebBacktest`).

Conventions of the embedding:
* Python floats are modelled as exact rationals (`ℚ`); positions, which the
  source keeps as Python `int`s, are `ℤ`.
* Python `int(x)` truncates toward zero; this is `pyInt` below.
* A raised Python exception is modelled by `Option.none`: `run` returns
  `none` exactly where the source raises (indexing the first row of an
  empty frame, and reading `buy_hold_rebal_capitals[-1]` when that list is
  empty, which happens for a single-bar series).
* The two scalar metrics whose values are irrational real expressions
  (annualized return `(1+r)^(252/N) - 1` and the Sharpe ratio, which
  involves square roots) are represented symbolically by the exact rational
  data the source feeds into those expressions (`PowRepr`, `SharpeRepr`).
  Equality of the representations implies equality of the real values.
* Dates enter the engine already parsed (the loader `load_data` is an
  external collaborator per the spec); the engine only reads the calendar
  month, the ISO week number and the printable day, so a date is a record
  of those fields.
-/

/-- Truncation toward zero, the behaviour of Python `int()` on a number. -/
def pyInt (q : ℚ) : ℤ := if 0 ≤ q then ⌊q⌋ else ⌈q⌉

/-- Calendar data of one bar: the fields of a parsed timestamp that the
engine reads (`date.month`, `date.isocalendar()[1]`, and the printed day). -/
structure Date where
  month : ℕ
  isoWeek : ℕ
  day : ℕ
deriving DecidableEq, Repr

/-- Rebalance cadence, the `rebalance_freq` strings accepted by the engine. -/
inductive Freq where
  | daily
  | weekly
  | monthly
deriving DecidableEq, Repr

/-- Configuration of `SpiderWebBacktest.__init__` (source lines 56-93). -/
structure Config where
  f : ℚ
  initial_capital : ℚ
  rebalance_freq : Freq
  fee_rate : ℚ
  tax_rate : ℚ
  futures_mode : Bool
  contract_multiplier : ℚ
  futures_fee : ℚ
  backwardation_rate : ℚ
deriving DecidableEq, Repr

/-- Derived per-day carry rate, `self.daily_backwardation = backwardation_rate / 252`
(source line 93). -/
def Config.daily_backwardation (c : Config) : ℚ := c.backwardation_rate / 252

/-- One input bar: a (date, closing price) record. -/
structure PriceRow where
  date : Date
  close : ℚ
deriving DecidableEq, Repr

/-- The method `_should_rebalance` (source lines 116-127). -/
def shouldRebalance (c : Config) (date : Date) (prev_date : Option Date) : Bool :=
  match prev_date with
  | none => true
  | some pd =>
    match c.rebalance_freq with
    | .daily => true
    | .weekly => date.isoWeek != pd.isoWeek
    | .monthly => date.month != pd.month

/-- The method `_calculate_trade_cost` (source lines 129-139). -/
def calcTradeCost (c : Config) (trade_value : ℚ) (sellFlag : Bool) (contracts : ℤ) : ℚ :=
  if c.futures_mode then
    |(contracts : ℚ)| * c.futures_fee
  else
    let cost := |trade_value| * c.fee_rate
    if sellFlag then cost + |trade_value| * c.tax_rate else cost

/-- The trade rationale recorded per step (source lines 198 and 264-271);
the f-strings are modelled by a constructor carrying the interpolated data. -/
inductive Reason where
  | initialEntry (cap : ℚ) (lev : ℚ)
  | addOnDecline (dp : ℚ) (bs : ℤ)
  | reduceOnRise (dp : ℚ) (bs : ℤ)
  | hold
deriving DecidableEq, Repr

/-- Mutable loop state of `SpiderWebBacktest.run` (source lines 160-184):
the target strategy, the static buy-and-hold baseline and the
monthly-rebalanced baseline evolved in lockstep. -/
structure SimState where
  cap : ℚ
  vol : ℤ
  bh_cap : ℚ
  bh_vol : ℤ
  bh_rebal_cap : ℚ
  bh_rebal_vol : ℤ
  bh_rebal_prev_month : Option ℕ
  prev_date : Date
  price : ℚ
  total_trade_cost : ℚ
deriving DecidableEq, Repr

/-- Values appended to the per-step lists in one loop iteration, together
with the intermediate quantities of that iteration that the source computes
on the way (capital after mark-to-market but before the trading cost, the
cost itself, whether the cadence fired, and the static baseline position). -/
structure StepRec where
  date : Date
  price : ℚ
  capital : ℚ
  volume : ℤ
  trade : ℤ
  reason : Reason
  bh_capital : ℚ
  bh_rebal_capital : ℚ
  capBeforeCost : ℚ
  cost : ℚ
  didRebalance : Bool
  bh_volume : ℤ
deriving DecidableEq, Repr

/-- Default record used only as the junk value of `List.getD` in statements
whose index is known to be in bounds. -/
def rec0 : StepRec :=
  { date := ⟨0, 0, 0⟩, price := 0, capital := 0, volume := 0, trade := 0
    reason := .hold, bh_capital := 0, bh_rebal_capital := 0
    capBeforeCost := 0, cost := 0, didRebalance := false, bh_volume := 0 }

/-- One iteration of the main loop for a step `i >= 1`
(source lines 186-283).  The source computes the rebalance quantities
inside `if self._should_rebalance(...)`; here they are bound
unconditionally and selected by the same condition, which is equivalent. -/
def step (c : Config) (s : SimState) (row : PriceRow) : SimState × StepRec :=
  let date := row.date
  let new_price := row.close
  let delta_p := new_price - s.price
  -- mark to market plus carry (source lines 204-226)
  let mtm : ℚ × ℚ × ℚ :=
    if c.futures_mode then
      let pnl := (s.vol : ℚ) * delta_p * c.contract_multiplier
      let bh_pnl := (s.bh_vol : ℚ) * delta_p * c.contract_multiplier
      let bh_rebal_pnl := (s.bh_rebal_vol : ℚ) * delta_p * c.contract_multiplier
      if c.daily_backwardation > 0 then
        (pnl + (s.vol : ℚ) * s.price * c.contract_multiplier * c.daily_backwardation,
         bh_pnl + (s.bh_vol : ℚ) * s.price * c.contract_multiplier * c.daily_backwardation,
         bh_rebal_pnl + (s.bh_rebal_vol : ℚ) * s.price * c.contract_multiplier * c.daily_backwardation)
      else
        (pnl, bh_pnl, bh_rebal_pnl)
    else
      ((s.vol : ℚ) * delta_p, (s.bh_vol : ℚ) * delta_p, (s.bh_rebal_vol : ℚ) * delta_p)
  let cap1 := s.cap + mtm.1
  let bh_cap1 := s.bh_cap + mtm.2.1
  let bh_rebal_cap1 := s.bh_rebal_cap + mtm.2.2
  -- monthly reposition of the monthly-rebalanced baseline
  -- (source lines 229-231 and 237-239)
  let rebalPair : ℤ × Option ℕ :=
    if s.bh_rebal_prev_month = some date.month then
      (s.bh_rebal_vol, s.bh_rebal_prev_month)
    else
      (if c.futures_mode then
         pyInt (bh_rebal_cap1 * c.f / (new_price * c.contract_multiplier))
       else
         pyInt (bh_rebal_cap1 * c.f / new_price),
       some date.month)
  -- rebalance of the target strategy (source lines 241-262)
  let doReb := shouldRebalance c date (some s.prev_date)
  let target_vol :=
    if c.futures_mode then
      pyInt (cap1 * c.f / (new_price * c.contract_multiplier))
    else
      pyInt (cap1 * c.f / new_price)
  let bs : ℤ := if doReb then target_vol - s.vol else 0
  let trade_value :=
    if c.futures_mode then |(bs : ℚ) * new_price * c.contract_multiplier|
    else |(bs : ℚ) * new_price|
  let trade_cost := if doReb then calcTradeCost c trade_value (bs < 0) bs else 0
  let cap2 := cap1 - trade_cost
  let vol1 : ℤ := if doReb then target_vol else s.vol
  -- trade rationale (source lines 264-271)
  let reason : Reason :=
    if bs > 0 then .addOnDecline delta_p bs
    else if bs < 0 then .reduceOnRise delta_p bs
    else .hold
  ({ cap := cap2, vol := vol1
     bh_cap := bh_cap1, bh_vol := s.bh_vol
     bh_rebal_cap := bh_rebal_cap1, bh_rebal_vol := rebalPair.1
     bh_rebal_prev_month := rebalPair.2
     prev_date := date, price := new_price
     total_trade_cost := s.total_trade_cost + trade_cost },
   { date := date, price := new_price, capital := cap2, volume := vol1
     trade := bs, reason := reason, bh_capital := bh_cap1
     bh_rebal_capital := bh_rebal_cap1
     capBeforeCost := cap1, cost := trade_cost
     didRebalance := doReb, bh_volume := s.bh_vol })

/-- Initial position sizing (source lines 164-175): both the target and the
baselines enter with `int(capital * f / price)` units, the price divisor
carrying the contract multiplier in futures mode. -/
def initVol (c : Config) (cap price : ℚ) : ℤ :=
  if c.futures_mode then
    pyInt (cap * c.f / (price * c.contract_multiplier))
  else
    pyInt (cap * c.f / price)

/-- Loop state after step 0 (source lines 160-202: at entry `cap` still
equals `initial_capital`, so the target and baseline sizings coincide). -/
def initSt (c : Config) (first : PriceRow) : SimState :=
  { cap := c.initial_capital
    vol := initVol c c.initial_capital first.close
    bh_cap := c.initial_capital
    bh_vol := initVol c c.initial_capital first.close
    bh_rebal_cap := c.initial_capital
    bh_rebal_vol := initVol c c.initial_capital first.close
    bh_rebal_prev_month := none
    prev_date := first.date
    price := first.close
    total_trade_cost := 0 }

/-- Values recorded at step 0 (source lines 191-202).  The source does not
append to `buy_hold_rebal_capitals` here; the `bh_rebal_capital` field holds
the state value, and `run` below drops it from the assembled list. -/
def initRec (c : Config) (first : PriceRow) : StepRec :=
  { date := first.date
    price := first.close
    capital := c.initial_capital
    volume := initVol c c.initial_capital first.close
    trade := initVol c c.initial_capital first.close
    reason := .initialEntry c.initial_capital c.f
    bh_capital := c.initial_capital
    bh_rebal_capital := c.initial_capital
    capBeforeCost := c.initial_capital
    cost := 0
    didRebalance := true
    bh_volume := initVol c c.initial_capital first.close }

/-- The loop of `run` over the bars after the first. -/
def runLoop (c : Config) (s : SimState) : List PriceRow → List StepRec
  | [] => []
  | row :: rest =>
    let p := step c s row
    p.2 :: runLoop c p.1 rest

/-- Full per-step trace of a run: the step-0 record followed by one record
per later bar. -/
def runTrace (c : Config) : List PriceRow → List StepRec
  | [] => []
  | first :: rest => initRec c first :: runLoop c (initSt c first) rest

/-- Per-step simple returns, `np.diff(capitals) / capitals[:-1]`
(source line 301). -/
def diffReturns (caps : List ℚ) : List ℚ :=
  List.zipWith (fun a b => (b - a) / a) caps caps.tail

/-- Arithmetic mean, `np.mean`. -/
def listMean (l : List ℚ) : ℚ := l.sum / l.length

/-- Population variance (the square of `np.std`, which uses `ddof=0`).
The source tests `np.std(x) > 0`, which is equivalent to the variance
being positive. -/
def listVarPop (l : List ℚ) : ℚ :=
  (l.map (fun x => (x - listMean l) ^ 2)).sum / l.length

/-- Helper for the running maximum: prefix maxima continued from seed `m`. -/
def peakAcc (m : ℚ) : List ℚ → List ℚ
  | [] => []
  | x :: xs => max m x :: peakAcc (max m x) xs

/-- Running maximum of a trajectory, `np.maximum.accumulate`
(source line 296). -/
def runningPeak : List ℚ → List ℚ
  | [] => []
  | x :: xs => x :: peakAcc x xs

/-- Per-step drawdowns `(peak - capital) / peak` (source line 297). -/
def drawdowns (caps : List ℚ) : List ℚ :=
  List.zipWith (fun pk cv => (pk - cv) / pk) (runningPeak caps) caps

/-- Maximum of a list, `np.max`; the empty case never arises where the
source calls it (the capital lists are nonempty). -/
def npMax : List ℚ → ℚ
  | [] => 0
  | x :: xs => xs.foldl max x

/-- Symbolic value of the annualization expression of source lines 292-293:
`powDef tr n` denotes the real number `(1 + tr) ** (252 / n) - 1`, and
`zero` the literal `0` of the degenerate branch. -/
inductive PowRepr where
  | zero
  | powDef (tr : ℚ) (n : ℕ)
deriving DecidableEq, Repr

/-- Symbolic value of the Sharpe expression of source lines 300-305:
`ofMeanVar m v` denotes `(m * 252 - 0.02) / (sqrt v * sqrt 252)` where `m`
and `v` are the mean and population variance of the per-step returns, and
`zero` the literal `0` of the degenerate branch. -/
inductive SharpeRepr where
  | zero
  | ofMeanVar (meanR : ℚ) (varR : ℚ)
deriving DecidableEq, Repr

/-- The dataclass `BacktestResult` (source lines 21-46). -/
structure BacktestResult where
  dates : List Date
  prices : List ℚ
  capitals : List ℚ
  volumes : List ℤ
  trades : List ℤ
  trade_reasons : List Reason
  buy_hold_capitals : List ℚ
  buy_hold_rebal_capitals : List ℚ
  total_return : ℚ
  annual_return : PowRepr
  max_drawdown : ℚ
  sharpe : SharpeRepr
  buy_hold_return : ℚ
  buy_hold_annual_return : PowRepr
  buy_hold_mdd : ℚ
  buy_hold_rebal_return : ℚ
  total_trades : ℕ
  total_buy_volume : ℤ
  total_sell_volume : ℤ
deriving DecidableEq, Repr

/-- The method `SpiderWebBacktest.run` (source lines 141-348).  `none`
models a raised exception: reading the first row of an empty frame
(`data.loc[0]`), and `buy_hold_rebal_capitals[-1]` on the empty list a
single-bar series leaves behind. -/
def run (c : Config) (data : List PriceRow) : Option BacktestResult :=
  match data with
  | [] => none
  | first :: rest =>
    let recs := initRec c first :: runLoop c (initSt c first) rest
    let dates := recs.map (·.date)
    let prices := recs.map (·.price)
    let capitals := recs.map (·.capital)
    let volumes := recs.map (·.volume)
    let trades := recs.map (·.trade)
    let trade_reasons := recs.map (·.reason)
    let buy_hold_capitals := recs.map (·.bh_capital)
    -- step 0 appends to every other list but not to this one (source
    -- lines 191-202 versus line 280)
    let buy_hold_rebal_capitals := (runLoop c (initSt c first) rest).map (·.bh_rebal_capital)
    let total_return := (capitals.getLastD 0 - c.initial_capital) / c.initial_capital
    let years : ℚ := (data.length : ℚ) / 252
    let annual_return := if years > 0 then PowRepr.powDef total_return data.length else PowRepr.zero
    let max_drawdown := npMax (drawdowns capitals)
    let daily_returns := diffReturns capitals
    let sharpe :=
      if daily_returns.length > 0 ∧ listVarPop daily_returns > 0 then
        SharpeRepr.ofMeanVar (listMean daily_returns) (listVarPop daily_returns)
      else
        SharpeRepr.zero
    let buy_hold_return := (buy_hold_capitals.getLastD 0 - c.initial_capital) / c.initial_capital
    let buy_hold_annual := if years > 0 then PowRepr.powDef buy_hold_return data.length else PowRepr.zero
    let buy_hold_mdd := npMax (drawdowns buy_hold_capitals)
    match buy_hold_rebal_capitals.getLast? with
    | none => none
    | some lastRebal =>
      some
        { dates := dates, prices := prices, capitals := capitals
          volumes := volumes, trades := trades, trade_reasons := trade_reasons
          buy_hold_capitals := buy_hold_capitals
          buy_hold_rebal_capitals := buy_hold_rebal_capitals
          total_return := total_return
          annual_return := annual_return
          max_drawdown := max_drawdown
          sharpe := sharpe
          buy_hold_return := buy_hold_return
          buy_hold_annual_return := buy_hold_annual
          buy_hold_mdd := buy_hold_mdd
          buy_hold_rebal_return := (lastRebal - c.initial_capital) / c.initial_capital
          total_trades := (trades.filter (fun t => t != 0)).length
          total_buy_volume := (trades.filter (fun t => decide (0 < t))).sum
          total_sell_volume := |(trades.filter (fun t => decide (t < 0))).sum| }

/-!
Claim-side formulas.  These restate, as standalone functions of the
recorded data, the quantities the claims quantify over: the price
multiplier, the carry income accrued from the pre-step price, and the
trading cost charged for a signed trade at a price.  Each mirrors the
corresponding expression of the source.
-/

/-- Price multiplier applied to positions: the contract multiplier in
futures mode and 1 in cash mode. -/
def multOf (c : Config) : ℚ := if c.futures_mode then c.contract_multiplier else 1

/-- Carry income accrued at a step for a position `v` held at pre-step
price `p` (source lines 212-222): zero in cash mode and when the daily
backwardation rate is not strictly positive. -/
def carryTerm (c : Config) (v : ℤ) (p : ℚ) : ℚ :=
  if c.futures_mode = true ∧ c.daily_backwardation > 0 then
    (v : ℚ) * p * c.contract_multiplier * c.daily_backwardation
  else 0

/-- Trading cost charged for a signed trade `bs` at price `p'`
(source lines 250-256 together with `_calculate_trade_cost`). -/
def costTerm (c : Config) (bs : ℤ) (p' : ℚ) : ℚ :=
  if c.futures_mode then
    |(bs : ℚ)| * c.futures_fee
  else
    |(bs : ℚ) * p'| * c.fee_rate + (if bs < 0 then |(bs : ℚ) * p'| * c.tax_rate else 0)

/-- The loop state agrees with the values last recorded. -/
def Matches (s : SimState) (a : StepRec) : Prop :=
  s.cap = a.capital ∧ s.vol = a.volume ∧ s.price = a.price ∧
    s.bh_cap = a.bh_capital ∧ s.bh_vol = a.bh_volume

/-- Relation between two consecutive step records established by one loop
iteration: capital continuity, the cost formula, the sizing rule at
rebalance events, the frame condition off rebalance events, and the static
baseline evolution. -/
def StepRel (c : Config) (a b : StepRec) : Prop :=
  b.capBeforeCost
      = a.capital + (a.volume : ℚ) * (b.price - a.price) * multOf c
        + carryTerm c a.volume a.price
  ∧ b.capital = b.capBeforeCost - b.cost
  ∧ b.cost = costTerm c b.trade b.price
  ∧ (b.didRebalance = true →
      b.volume = pyInt (b.capBeforeCost * c.f / (b.price * multOf c)))
  ∧ (b.didRebalance = false → b.volume = a.volume ∧ b.trade = 0)
  ∧ b.trade + a.volume = b.volume
  ∧ b.bh_volume = a.bh_volume
  ∧ b.bh_capital
      = a.bh_capital + (a.bh_volume : ℚ) * (b.price - a.price) * multOf c
        + carryTerm c a.bh_volume a.price

/-!
Concrete configurations and price series used by the closed theorems
(counterexamples, code-bug evaluations and witnesses).
-/

/-- Default cash-mode configuration of `SpiderWebBacktest.__init__`:
`f = 0.5`, capital 1,000,000, daily cadence, fee rate 0.001425,
tax rate 0.003. -/
def cfgDefault : Config :=
  { f := 1/2, initial_capital := 1000000, rebalance_freq := .daily
    fee_rate := 57/40000, tax_rate := 3/1000, futures_mode := false
    contract_multiplier := 10, futures_fee := 22, backwardation_rate := 0 }

/-- Default configuration with leverage 2. -/
def cfgF2 : Config := { cfgDefault with f := 2 }

/-- Default configuration with leverage 5 (within the spec's stated
leverage range 0.1 - 5.0). -/
def cfgF5 : Config := { cfgDefault with f := 5 }

/-- Default configuration switched to futures mode (multiplier 10,
fee 22 per contract, carry rate 0). -/
def cfgFutD : Config := { cfgDefault with futures_mode := true }

/-- Futures-mode configuration with every trading cost set to zero. -/
def cfgFutZero : Config :=
  { cfgDefault with futures_mode := true, futures_fee := 0, fee_rate := 0, tax_rate := 0 }

/-- Futures-mode configuration with a negative annualized carry rate. -/
def cfgNegCarry : Config := { cfgFutD with backwardation_rate := -(1/10) }

/-- Bar `i` of a synthetic January price series. -/
def mkRow (i : ℕ) (p : ℚ) : PriceRow := ⟨⟨1, 1, i⟩, p⟩

/-- The price path of the spec's leverage-direction property and of
`run_simple_test` (source line 354). -/
def dataSpecPath : List PriceRow :=
  [mkRow 1 100, mkRow 2 80, mkRow 3 64, mkRow 4 51, mkRow 5 40, mkRow 6 32,
   mkRow 7 40, mkRow 8 51, mkRow 9 64, mkRow 10 80, mkRow 11 100]

/-- A two-bar crash: the price drops from 100 to 41. -/
def dataCrash : List PriceRow := [mkRow 1 100, mkRow 2 41]

/-- A two-bar series whose sizing quotients are not integral. -/
def dataC8 : List PriceRow := [mkRow 1 107, mkRow 2 108]

/-- A two-bar series with negative prices. -/
def dataNeg : List PriceRow := [mkRow 1 (-5), mkRow 2 (-4)]

/-- A benign two-bar series. -/
def dataUp : List PriceRow := [mkRow 1 100, mkRow 2 101]

/-- A single-bar series. -/
def dataOne : List PriceRow := [mkRow 1 100]

/-- Result with empty arrays, used only as the junk value of `Option.getD`
on options proved to be `some`. -/
def emptyResult : BacktestResult :=
  { dates := [], prices := [], capitals := [], volumes := [], trades := []
    trade_reasons := [], buy_hold_capitals := [], buy_hold_rebal_capitals := []
    total_return := 0, annual_return := .zero, max_drawdown := 0
    sharpe := .zero, buy_hold_return := 0, buy_hold_annual_return := .zero
    buy_hold_mdd := 0, buy_hold_rebal_return := 0, total_trades := 0
    total_buy_volume := 0, total_sell_volume := 0 }

/-- The result of a run known to succeed. -/
def resOf (c : Config) (data : List PriceRow) : BacktestResult :=
  (run c data).getD emptyResult

/-!
Scaling maps for the zero-carry mode-equivalence theorem: a cash-mode run
on the `m`-scaled price series mirrors a futures-mode run with multiplier
`m` on the original series.
-/

/-- Scale the closing price of a bar by `m`. -/
def scaleRow (m : ℚ) (r : PriceRow) : PriceRow := { r with close := m * r.close }

/-- Scale the price delta carried by a trade rationale by `m`. -/
def scaleReason (m : ℚ) : Reason → Reason
  | .initialEntry cap lev => .initialEntry cap lev
  | .addOnDecline dp bs => .addOnDecline (m * dp) bs
  | .reduceOnRise dp bs => .reduceOnRise (m * dp) bs
  | .hold => .hold

/-- Scale the price data carried by a step record by `m`. -/
def scaleRec (m : ℚ) (r : StepRec) : StepRec :=
  { r with price := m * r.price, reason := scaleReason m r.reason }

/-- Scale the last observed price of a loop state by `m`. -/
def scaleSt (m : ℚ) (s : SimState) : SimState := { s with price := m * s.price }

/-- Scale the price data carried by a result by `m`. -/
def scaleResult (m : ℚ) (r : BacktestResult) : BacktestResult :=
  { r with prices := r.prices.map (fun p => m * p)
           trade_reasons := r.trade_reasons.map (scaleReason m) }


lemma costTerm_zero (c : Config) (p' : ℚ) : costTerm c 0 p' = 0 := by
  simp [costTerm]

lemma initVol_eq (c : Config) (cap p : ℚ) :
    initVol c cap p = pyInt (cap * c.f / (p * multOf c)) := by
  unfold initVol multOf
  split_ifs <;> simp

lemma step_price (c : Config) (s : SimState) (row : PriceRow) :
    (step c s row).2.price = row.close := rfl

lemma step_capBeforeCost (c : Config) (s : SimState) (row : PriceRow) :
    (step c s row).2.capBeforeCost
      = s.cap + (s.vol : ℚ) * (row.close - s.price) * multOf c
        + carryTerm c s.vol s.price := by
  simp only [step, multOf, carryTerm]
  split_ifs <;> simp_all
  ring

lemma step_bh_capital (c : Config) (s : SimState) (row : PriceRow) :
    (step c s row).2.bh_capital
      = s.bh_cap + (s.bh_vol : ℚ) * (row.close - s.price) * multOf c
        + carryTerm c s.bh_vol s.price := by
  simp only [step, multOf, carryTerm]
  split_ifs <;> simp_all
  ring

lemma step_bh_volume (c : Config) (s : SimState) (row : PriceRow) :
    (step c s row).2.bh_volume = s.bh_vol := rfl

lemma step_state_bh_vol (c : Config) (s : SimState) (row : PriceRow) :
    (step c s row).1.bh_vol = s.bh_vol := rfl

lemma step_capital (c : Config) (s : SimState) (row : PriceRow) :
    (step c s row).2.capital = (step c s row).2.capBeforeCost - (step c s row).2.cost := rfl

lemma step_didRebalance (c : Config) (s : SimState) (row : PriceRow) :
    (step c s row).2.didRebalance = shouldRebalance c row.date (some s.prev_date) := rfl

lemma step_cost_eq (c : Config) (s : SimState) (row : PriceRow) :
    (step c s row).2.cost = costTerm c (step c s row).2.trade (step c s row).2.price := by
  simp only [step, costTerm, calcTradeCost]
  split_ifs <;> simp_all [abs_mul, abs_abs]

lemma step_trade_volume (c : Config) (s : SimState) (row : PriceRow) :
    (step c s row).2.trade + s.vol = (step c s row).2.volume := by
  simp only [step]
  split_ifs <;> ring

lemma step_reb_true (c : Config) (s : SimState) (row : PriceRow)
    (h : (step c s row).2.didRebalance = true) :
    (step c s row).2.volume
      = pyInt ((step c s row).2.capBeforeCost * c.f / ((step c s row).2.price * multOf c)) := by
  rw [step_didRebalance] at h
  simp only [step, multOf, h]
  split_ifs <;> simp_all

lemma step_reb_false (c : Config) (s : SimState) (row : PriceRow)
    (h : (step c s row).2.didRebalance = false) :
    (step c s row).2.volume = s.vol ∧ (step c s row).2.trade = 0 := by
  rw [step_didRebalance] at h
  simp only [step, h]
  simp

lemma step_matches (c : Config) (s : SimState) (row : PriceRow) :
    Matches (step c s row).1 (step c s row).2 := by
  refine ⟨rfl, rfl, rfl, rfl, rfl⟩

/-- One loop iteration establishes `StepRel` between the previous record
and the record it emits, provided the state agrees with the previous
record. -/
lemma step_rel (c : Config) (s : SimState) (a : StepRec) (row : PriceRow)
    (hm : Matches s a) : StepRel c a (step c s row).2 := by
  obtain ⟨hcap, hvol, hprice, hbh, hbhv⟩ := hm
  refine ⟨?_, step_capital c s row, step_cost_eq c s row, ?_, ?_, ?_, ?_, ?_⟩
  · rw [step_capBeforeCost, step_price, hcap, hvol, hprice]
  · intro h
    exact step_reb_true c s row h
  · intro h
    rw [← hvol]
    exact step_reb_false c s row h
  · rw [← hvol]
    exact step_trade_volume c s row
  · rw [step_bh_volume, hbhv]
  · rw [step_bh_capital, step_price, hbh, hbhv, hprice]

lemma step_cost_of_trade_zero (c : Config) (a b : StepRec) (h : StepRel c a b)
    (h0 : b.trade = 0) : b.cost = 0 := by
  rw [h.2.2.1, h0, costTerm_zero]

/-- Small indexing helpers used to phrase per-step claims with `List.getD`. -/
lemma getD_map_of_lt {α β : Type} (f : α → β) (d' : α) (d : β) :
    ∀ (l : List α) (i : ℕ), i < l.length → (l.map f).getD i d = f (l.getD i d')
  | [], i, h => by simp at h
  | x :: xs, 0, _ => rfl
  | x :: xs, i + 1, h => by
    simpa using getD_map_of_lt f d' d xs i (by simpa using h)

lemma getD_zipWith_of_lt {α β γ : Type} (f : α → β → γ) (d1 : α) (d2 : β) (d : γ) :
    ∀ (l1 : List α) (l2 : List β) (i : ℕ), i < l1.length → i < l2.length →
      (List.zipWith f l1 l2).getD i d = f (l1.getD i d1) (l2.getD i d2)
  | [], _, i, h1, _ => by simp at h1
  | _ :: _, [], i, _, h2 => by simp at h2
  | x :: xs, y :: ys, 0, _, _ => rfl
  | x :: xs, y :: ys, i + 1, h1, h2 => by
    simpa using getD_zipWith_of_lt f d1 d2 d xs ys i (by simpa using h1) (by simpa using h2)

/-- Adjacent records of the loop output satisfy `StepRel`, given a state
agreeing with the record already emitted. -/
lemma runLoop_pair (c : Config) :
    ∀ (rows : List PriceRow) (s : SimState) (a : StepRec), Matches s a →
      ∀ i, i + 1 < (a :: runLoop c s rows).length →
        StepRel c ((a :: runLoop c s rows).getD i rec0)
          ((a :: runLoop c s rows).getD (i + 1) rec0)
  | [], s, a, _, i, hi => by simp [runLoop] at hi
  | row :: rest, s, a, hm, 0, hi => by
    simpa [runLoop] using step_rel c s a row hm
  | row :: rest, s, a, hm, i + 1, hi => by
    have h := runLoop_pair c rest (step c s row).1 (step c s row).2
      (step_matches c s row) i (by simpa [runLoop] using hi)
    simpa [runLoop] using h

/-- Adjacent records of the full trace satisfy `StepRel`. -/
lemma runTrace_pair (c : Config) (data : List PriceRow) (i : ℕ)
    (hi : i + 1 < (runTrace c data).length) :
    StepRel c ((runTrace c data).getD i rec0) ((runTrace c data).getD (i + 1) rec0) := by
  match data with
  | [] => simp [runTrace] at hi
  | first :: rest =>
    have hm : Matches (initSt c first) (initRec c first) := ⟨rfl, rfl, rfl, rfl, rfl⟩
    have h := runLoop_pair c rest (initSt c first) (initRec c first) hm i
      (by simpa [runTrace] using hi)
    simpa [runTrace] using h

/-- A successful run records exactly the per-step trace: every array of the
result is the corresponding projection of `runTrace` (and the
monthly-rebalanced baseline array is the projection of the trace without
its step-0 record, which the source never appends). -/
lemma run_fields (c : Config) (data : List PriceRow) (res : BacktestResult)
    (h : run c data = some res) :
    res.prices = (runTrace c data).map (·.price)
    ∧ res.capitals = (runTrace c data).map (·.capital)
    ∧ res.volumes = (runTrace c data).map (·.volume)
    ∧ res.trades = (runTrace c data).map (·.trade)
    ∧ res.buy_hold_capitals = (runTrace c data).map (·.bh_capital)
    ∧ res.dates = (runTrace c data).map (·.date)
    ∧ res.trade_reasons = (runTrace c data).map (·.reason)
    ∧ res.buy_hold_rebal_capitals = ((runTrace c data).drop 1).map (·.bh_rebal_capital)
    ∧ res.max_drawdown = npMax (drawdowns ((runTrace c data).map (·.capital))) := by
  match data with
  | [] => simp [run] at h
  | first :: rest =>
    rw [run] at h
    cases hgl : (List.map (·.bh_rebal_capital) (runLoop c (initSt c first) rest)).getLast? with
    | none => rw [hgl] at h; exact absurd h (by simp)
    | some lastRebal =>
      rw [hgl] at h
      have h' := Option.some.inj h
      subst h'
      refine ⟨rfl, rfl, rfl, rfl, rfl, rfl, rfl, ?_, rfl⟩
      simp [runTrace]

/-- C1.  Capital continuity: for every configuration and every price series
on which `run` returns a result, for every step `i + 1`, the recorded
capital satisfies
`capitals[i+1] = capitals[i] + pnl - cost + carry`, where `pnl` is the
mark-to-market profit of the position recorded at step `i` (times the
contract multiplier in futures mode), `carry` is the carry income computed
from the pre-step price (zero in cash mode or without a positive carry
rate), and `cost` is the trading cost charged by the rebalance, which is
zero whenever the recorded trade is zero. -/
theorem c1_capital_continuity (c : Config) (data : List PriceRow) (res : BacktestResult)
    (h : run c data = some res) (i : ℕ) (hi : i + 1 < res.capitals.length) :
    res.capitals.getD (i + 1) 0
        = res.capitals.getD i 0
          + (res.volumes.getD i 0 : ℚ)
              * (res.prices.getD (i + 1) 0 - res.prices.getD i 0) * multOf c
          + carryTerm c (res.volumes.getD i 0) (res.prices.getD i 0)
          - costTerm c (res.trades.getD (i + 1) 0) (res.prices.getD (i + 1) 0)
    ∧ (res.trades.getD (i + 1) 0 = 0 →
        costTerm c (res.trades.getD (i + 1) 0) (res.prices.getD (i + 1) 0) = 0) := by
  obtain ⟨hp, hc, hv, ht, _, _, _, _, _⟩ := run_fields c data res h
  rw [hc, List.length_map] at hi
  have hi' : i < (runTrace c data).length := by omega
  have hrel := runTrace_pair c data i hi
  rw [hp, hc, hv, ht,
    getD_map_of_lt (·.capital) rec0 0 _ _ hi,
    getD_map_of_lt (·.capital) rec0 0 _ _ hi',
    getD_map_of_lt (·.volume) rec0 0 _ _ hi',
    getD_map_of_lt (·.price) rec0 0 _ _ hi,
    getD_map_of_lt (·.price) rec0 0 _ _ hi',
    getD_map_of_lt (·.trade) rec0 0 _ _ hi]
  obtain ⟨h1, h2, h3, _⟩ := hrel
  constructor
  · rw [h2, h1, h3]
  · intro h0
    rw [h0, costTerm_zero]

unseal Rat.add Rat.sub Rat.mul Rat.inv in
/-- C1 witness: the continuity equation holds at step 1 of a concrete
default-configuration run over the two-bar series `[100, 101]`. -/
theorem c1_capital_continuity_witness :
    run cfgDefault dataUp = some (resOf cfgDefault dataUp)
    ∧ (0 + 1 < (resOf cfgDefault dataUp).capitals.length)
    ∧ ((resOf cfgDefault dataUp).capitals.getD (0 + 1) 0
        = (resOf cfgDefault dataUp).capitals.getD 0 0
          + ((resOf cfgDefault dataUp).volumes.getD 0 0 : ℚ)
              * ((resOf cfgDefault dataUp).prices.getD (0 + 1) 0
                  - (resOf cfgDefault dataUp).prices.getD 0 0) * multOf cfgDefault
          + carryTerm cfgDefault ((resOf cfgDefault dataUp).volumes.getD 0 0)
              ((resOf cfgDefault dataUp).prices.getD 0 0)
          - costTerm cfgDefault ((resOf cfgDefault dataUp).trades.getD (0 + 1) 0)
              ((resOf cfgDefault dataUp).prices.getD (0 + 1) 0)) :=
  ⟨by decide, by decide,
    (c1_capital_continuity cfgDefault dataUp (resOf cfgDefault dataUp)
      (by decide) 0 (by decide)).1⟩

lemma pyInt_eq_floor_of_nonneg (q : ℚ) (h : 0 ≤ q) : pyInt q = ⌊q⌋ := by
  simp [pyInt, h]

/-- C2 (amended).  Position sizing: the position is an integer at every
step (`StepRec.volume` lives in `ℤ` by construction), and at every
rebalance event — including the initial entry at step 0 — it is set to
the Python `int` truncation of `capital * f / (price * multiplier)`,
taken at the capital after mark-to-market but before the trading cost;
off rebalance events it is left unchanged.  Truncation agrees with
`floor` whenever the sizing quotient is nonnegative (the original claim's
`floor` fails for negative quotients, see the counterexample). -/
theorem c2_position_truncation (c : Config) (data : List PriceRow) (i : ℕ)
    (hi : i + 1 < (runTrace c data).length) :
    (((runTrace c data).getD (i + 1) rec0).didRebalance = true →
      ((runTrace c data).getD (i + 1) rec0).volume
        = pyInt (((runTrace c data).getD (i + 1) rec0).capBeforeCost * c.f
            / (((runTrace c data).getD (i + 1) rec0).price * multOf c)))
    ∧ (((runTrace c data).getD (i + 1) rec0).didRebalance = false →
      ((runTrace c data).getD (i + 1) rec0).volume
        = ((runTrace c data).getD i rec0).volume)
    ∧ ((runTrace c data).getD 0 rec0).volume
        = pyInt (((runTrace c data).getD 0 rec0).capBeforeCost * c.f
            / (((runTrace c data).getD 0 rec0).price * multOf c))
    ∧ (∀ q : ℚ, 0 ≤ q → pyInt q = ⌊q⌋) := by
  have hrel := runTrace_pair c data i hi
  refine ⟨hrel.2.2.2.1, fun hf => (hrel.2.2.2.2.1 hf).1, ?_, pyInt_eq_floor_of_nonneg⟩
  match data with
  | [] => simp [runTrace] at hi
  | first :: rest =>
    show (initRec c first).volume
      = pyInt ((initRec c first).capBeforeCost * c.f / ((initRec c first).price * multOf c))
    exact initVol_eq c c.initial_capital first.close

unseal Rat.add Rat.sub Rat.mul Rat.inv in
/-- C2 witness: at step 1 of a default-configuration run over `[100, 101]`
(a rebalance event, daily cadence) the recorded position equals the
truncated sizing quotient. -/
theorem c2_position_truncation_witness :
    (0 + 1 < (runTrace cfgDefault dataUp).length)
    ∧ (((runTrace cfgDefault dataUp).getD (0 + 1) rec0).didRebalance = true →
      ((runTrace cfgDefault dataUp).getD (0 + 1) rec0).volume
        = pyInt (((runTrace cfgDefault dataUp).getD (0 + 1) rec0).capBeforeCost * cfgDefault.f
            / (((runTrace cfgDefault dataUp).getD (0 + 1) rec0).price * multOf cfgDefault))) :=
  ⟨by decide, (c2_position_truncation cfgDefault dataUp 0 (by decide)).1⟩

unseal Rat.add Rat.sub Rat.mul Rat.inv in
/-- C2 counterexample: with `f = 5` (inside the spec's leverage range) and
the crash series `[100, 41]`, step 1 is a rebalance event whose capital
after mark-to-market is `-1950000`; the recorded position is `-237804`
(truncation toward zero), not `floor(capital * f / price) = -237805`, so
the claim's floor-sizing rule is false as stated. -/
theorem c2_floor_sizing_cex :
    ((run cfgF5 dataCrash).map (fun r => r.volumes)) = some [50000, -237804]
    ∧ ((runTrace cfgF5 dataCrash).getD 1 rec0).didRebalance = true
    ∧ ((runTrace cfgF5 dataCrash).getD 1 rec0).capBeforeCost = -1950000
    ∧ ((runTrace cfgF5 dataCrash).getD 1 rec0).price = 41
    ∧ ((-237804 : ℤ) ≠ ⌊((-1950000 : ℚ)) * cfgF5.f / (41 * multOf cfgF5)⌋) := by
  decide

/-- C3.  A single-bar series makes `run` fail (the source raises an
`IndexError` reading `buy_hold_rebal_capitals[-1]`, because step 0 never
appends to that list), instead of returning the zero-fallback result the
claim describes.  In the embedding the raised exception is `none`. -/
theorem c3_single_bar_raises (c : Config) (row : PriceRow) : run c [row] = none := rfl

unseal Rat.add Rat.sub Rat.mul Rat.inv in
/-- C4.  On a two-bar series every per-step array of the result has length
2, but `buy_hold_rebal_capitals` has length 1: the step-0 append to it is
missing in the source (line 280 runs only for `i >= 1`), so the arrays are
not all parallel as claimed. -/
theorem c4_rebal_array_shorter :
    ((run cfgDefault dataUp).map (fun r =>
      [r.dates.length, r.prices.length, r.capitals.length, r.volumes.length,
       r.trades.length, r.trade_reasons.length, r.buy_hold_capitals.length,
       r.buy_hold_rebal_capitals.length]))
      = some [2, 2, 2, 2, 2, 2, 2, 1] := by
  decide

lemma trace_bh_vol_const (c : Config) (data : List PriceRow) :
    ∀ i, i < (runTrace c data).length →
      ((runTrace c data).getD i rec0).bh_volume
        = ((runTrace c data).getD 0 rec0).bh_volume := by
  intro i
  induction i with
  | zero => intro _; rfl
  | succ n ih =>
    intro h
    have hp := runTrace_pair c data n h
    rw [hp.2.2.2.2.2.2.1]
    exact ih (by omega)

/-- C5.  Static baseline invariance: the buy-and-hold position equals its
step-0 value at every step of the trace, its capital evolves only by
mark-to-market profit and carry income (no trade, no trading cost is ever
applied to it), and the result's `buy_hold_capitals` array records exactly
these capitals. -/
theorem c5_static_baseline (c : Config) (data : List PriceRow) (i : ℕ)
    (hi : i < (runTrace c data).length) :
    ((runTrace c data).getD i rec0).bh_volume
        = ((runTrace c data).getD 0 rec0).bh_volume
    ∧ (∀ j, j + 1 < (runTrace c data).length →
        ((runTrace c data).getD (j + 1) rec0).bh_capital
          = ((runTrace c data).getD j rec0).bh_capital
            + (((runTrace c data).getD j rec0).bh_volume : ℚ)
                * (((runTrace c data).getD (j + 1) rec0).price
                    - ((runTrace c data).getD j rec0).price) * multOf c
            + carryTerm c ((runTrace c data).getD j rec0).bh_volume
                ((runTrace c data).getD j rec0).price)
    ∧ (∀ res, run c data = some res →
        res.buy_hold_capitals = (runTrace c data).map (·.bh_capital)) := by
  refine ⟨trace_bh_vol_const c data i hi, ?_, ?_⟩
  · intro j hj
    exact (runTrace_pair c data j hj).2.2.2.2.2.2.2
  · intro res hres
    exact (run_fields c data res hres).2.2.2.2.1

unseal Rat.add Rat.sub Rat.mul Rat.inv in
/-- C5 witness: at step 1 of a default-configuration run over `[100, 101]`
the static baseline position equals its step-0 value. -/
theorem c5_static_baseline_witness :
    (1 < (runTrace cfgDefault dataUp).length)
    ∧ ((runTrace cfgDefault dataUp).getD 1 rec0).bh_volume
        = ((runTrace cfgDefault dataUp).getD 0 rec0).bh_volume :=
  ⟨by decide, (c5_static_baseline cfgDefault dataUp 1 (by decide)).1⟩

lemma length_peakAcc (m : ℚ) : ∀ l : List ℚ, (peakAcc m l).length = l.length
  | [] => rfl
  | x :: xs => by simp [peakAcc, length_peakAcc (max m x) xs]

lemma length_runningPeak : ∀ l : List ℚ, (runningPeak l).length = l.length
  | [] => rfl
  | x :: xs => by simp [runningPeak, length_peakAcc]

lemma le_foldl_max : ∀ (l : List ℚ) (a : ℚ), a ≤ l.foldl max a
  | [], a => le_refl a
  | x :: xs, a => le_trans (le_max_left a x) (le_foldl_max xs (max a x))

lemma foldl_max_le (b : ℚ) :
    ∀ (l : List ℚ) (a : ℚ), a ≤ b → (∀ x ∈ l, x ≤ b) → l.foldl max a ≤ b
  | [], a, ha, _ => ha
  | x :: xs, a, ha, hl => by
    refine foldl_max_le b xs (max a x) (max_le ha (hl x ?_)) (fun y hy => hl y ?_)
    · simp
    · simp [hy]

/-- Elements of the peak list dominate both the seed and the corresponding
trajectory entries. -/
lemma peakAcc_getD :
    ∀ (l : List ℚ) (m : ℚ) (i : ℕ), i < l.length →
      l.getD i 0 ≤ (peakAcc m l).getD i 0 ∧ m ≤ (peakAcc m l).getD i 0
  | [], m, i, h => by simp at h
  | x :: xs, m, 0, _ => by
    simp [peakAcc]
  | x :: xs, m, i + 1, h => by
    have ih := peakAcc_getD xs (max m x) i (by simpa using h)
    exact ⟨ih.1, le_trans (le_max_left m x) ih.2⟩

/-- A drawdown entry at a step whose capital equals the running peak is 0. -/
lemma drawdown_peak_step_zero :
    ∀ (caps : List ℚ) (i : ℕ), i < caps.length →
      caps.getD i 0 = (runningPeak caps).getD i 0 →
      (drawdowns caps).getD i 0 = 0 := by
  intro caps i hi hpk
  have hl : i < (runningPeak caps).length := by rw [length_runningPeak]; exact hi
  rw [drawdowns, getD_zipWith_of_lt _ 0 0 0 _ _ i hl hi, ← hpk]
  simp

/-- Every drawdown entry past the head is at most 1 when the trajectory is
nonnegative and the seed peak is positive. -/
lemma zip_drawdown_le_one :
    ∀ (cs : List ℚ) (m : ℚ), 0 < m → (∀ x ∈ cs, 0 ≤ x) →
      ∀ y ∈ List.zipWith (fun pk cv => (pk - cv) / pk) (peakAcc m cs) cs, y ≤ 1
  | [], m, _, _, y, hy => by simp at hy
  | x :: xs, m, hm, hnn, y, hy => by
    rw [peakAcc] at hy
    simp only [List.zipWith_cons_cons, List.mem_cons] at hy
    rcases hy with hy | hy
    · subst hy
      have hpk : 0 < max m x := lt_of_lt_of_le hm (le_max_left m x)
      rw [div_le_one hpk]
      have hx : 0 ≤ x := hnn x (by simp)
      linarith
    · exact zip_drawdown_le_one xs (max m x) (lt_of_lt_of_le hm (le_max_left m x))
        (fun z hz => hnn z (by simp [hz])) y hy

/-- C6 (amended).  For every successful run with positive initial capital:
`max_drawdown` is the maximum over all steps of
`(runningPeak - capital) / runningPeak`; it is nonnegative; every step
whose capital equals the running peak contributes drawdown exactly 0; and
the upper bound `max_drawdown <= 1` holds provided the capital trajectory
stays nonnegative (the original unconditional bound fails once capital
goes negative, see the counterexample). -/
theorem c6_drawdown_bound (c : Config) (data : List PriceRow) (res : BacktestResult)
    (h : run c data = some res) (hpos : 0 < c.initial_capital) :
    res.max_drawdown = npMax (drawdowns res.capitals)
    ∧ 0 ≤ res.max_drawdown
    ∧ (∀ i, i < res.capitals.length →
        res.capitals.getD i 0 = (runningPeak res.capitals).getD i 0 →
        (drawdowns res.capitals).getD i 0 = 0)
    ∧ ((∀ x ∈ res.capitals, 0 ≤ x) → res.max_drawdown ≤ 1) := by
  obtain ⟨_, hc, _, _, _, _, _, _, hmdd⟩ := run_fields c data res h
  have hform : res.max_drawdown = npMax (drawdowns res.capitals) := by rw [hmdd, hc]
  match data with
  | [] => simp [run] at h
  | first :: rest =>
    have hcaps : res.capitals
        = c.initial_capital :: (runLoop c (initSt c first) rest).map (·.capital) := by
      rw [hc]; rfl
    refine ⟨hform, ?_, fun i hi hpk => drawdown_peak_step_zero res.capitals i hi hpk, ?_⟩
    · rw [hform, hcaps, drawdowns, runningPeak]
      simp only [List.zipWith_cons_cons, sub_self, zero_div, npMax]
      exact le_foldl_max _ 0
    · intro hnn
      rw [hform, hcaps, drawdowns, runningPeak]
      simp only [List.zipWith_cons_cons, sub_self, zero_div, npMax]
      refine foldl_max_le 1 _ 0 (by norm_num) ?_
      intro y hy
      refine zip_drawdown_le_one _ c.initial_capital hpos ?_ y hy
      intro z hz
      refine hnn z ?_
      rw [hcaps]
      simp [hz]

unseal Rat.add Rat.sub Rat.mul Rat.inv in
/-- C6 witness: a concrete default-configuration run over `[100, 101]` has
a nonnegative maximum drawdown. -/
theorem c6_drawdown_bound_witness :
    run cfgDefault dataUp = some (resOf cfgDefault dataUp)
    ∧ 0 < cfgDefault.initial_capital
    ∧ 0 ≤ (resOf cfgDefault dataUp).max_drawdown :=
  ⟨by decide, by decide,
    (c6_drawdown_bound cfgDefault dataUp (resOf cfgDefault dataUp)
      (by decide) (by decide)).2.1⟩

unseal Rat.add Rat.sub Rat.mul Rat.inv in
/-- C6 counterexample: with `f = 5` on the crash series `[100, 41]`
(positive initial capital 1,000,000) the recorded maximum drawdown is
about 3.002, so the claimed bound `max_drawdown <= 1` is false. -/
theorem c6_drawdown_range_cex :
    ((run cfgF5 dataCrash).map (fun r => r.max_drawdown))
      = some (30022148407 / 10000000000)
    ∧ ¬ ((30022148407 / 10000000000 : ℚ) ≤ 1) := by
  decide

unseal Rat.add Rat.sub Rat.mul Rat.inv in
/-- C7.  Leverage-direction property on the spec's price path
`[100, 80, 64, 51, 40, 32, 40, 51, 64, 80, 100]` with the default
cash-mode configuration (initial capital 1,000,000, daily cadence):
with `f = 0.5` every decline step (indices 1-5) records a buy
(`sign = 1`) and every rise step (indices 6-10) a sell (`sign = -1`);
with `f = 2.0` the signs invert.  Index 0 is the initial entry. -/
theorem c7_leverage_direction :
    ((run cfgDefault dataSpecPath).map (fun r => r.trades.map Int.sign))
      = some [1, 1, 1, 1, 1, 1, -1, -1, -1, -1, -1]
    ∧ ((run cfgF2 dataSpecPath).map (fun r => r.trades.map Int.sign))
      = some [1, -1, -1, -1, -1, -1, 1, 1, 1, 1, 1] := by
  decide

unseal Rat.add Rat.sub Rat.mul Rat.inv in
/-- C9 counterexample: the engine performs no input validation; a series
with negative prices is processed normally and `run` returns a result,
contradicting the claim that non-positive prices make the engine fail. -/
theorem c9_validation_cex : (run cfgDefault dataNeg).isSome = true := by
  decide

unseal Rat.add Rat.sub Rat.mul Rat.inv in
/-- C9 (amended).  An empty price series does make `run` fail (the source
raises indexing the first row; there is no `DataError` class anywhere in
the code), but non-positive prices are not checked: a negative-price
series returns a result, and date parsing happens in the external loader,
not in the engine. -/
theorem c9_empty_fails_no_price_check :
    (∀ c : Config, run c [] = none) ∧ (run cfgDefault dataNeg).isSome = true :=
  ⟨fun _ => rfl, by decide⟩

lemma daily_backwardation_nonpos_of_neg (c : Config) (h : c.backwardation_rate < 0) :
    ¬ c.daily_backwardation > 0 := by
  have : c.daily_backwardation < 0 := by
    rw [Config.daily_backwardation]
    exact div_neg_of_neg_of_pos h (by norm_num)
  linarith

lemma daily_backwardation_zero_config (c : Config) :
    ¬ ({ c with backwardation_rate := 0 } : Config).daily_backwardation > 0 := by
  rw [Config.daily_backwardation]
  norm_num

lemma step_carry_erase (c : Config) (h : c.backwardation_rate < 0)
    (s : SimState) (row : PriceRow) :
    step c s row = step { c with backwardation_rate := 0 } s row := by
  simp only [step, if_neg (daily_backwardation_nonpos_of_neg c h),
    if_neg (daily_backwardation_zero_config c)]
  rfl

lemma runLoop_carry_erase (c : Config) (h : c.backwardation_rate < 0) :
    ∀ (rows : List PriceRow) (s : SimState),
      runLoop c s rows = runLoop { c with backwardation_rate := 0 } s rows
  | [], _ => rfl
  | row :: rest, s => by
    rw [runLoop, runLoop, step_carry_erase c h s row]
    rw [runLoop_carry_erase c h rest]

/-- C10.  Negative-carry neutrality: carry income is credited only when
the derived daily backwardation rate is strictly positive, so a run
configured with any negative annualized rate returns exactly the same
result as the same configuration with rate 0. -/
theorem c10_negative_carry_neutral (c : Config) (data : List PriceRow)
    (h : c.backwardation_rate < 0) :
    run c data = run { c with backwardation_rate := 0 } data := by
  match data with
  | [] => rfl
  | first :: rest =>
    rw [run, run, runLoop_carry_erase c h rest (initSt c first)]
    rfl

unseal Rat.add Rat.sub Rat.mul Rat.inv in
/-- C10 witness: a concrete futures-mode run with annualized carry rate
-0.1 equals the same run with rate 0. -/
theorem c10_negative_carry_neutral_witness :
    cfgNegCarry.backwardation_rate < 0
    ∧ run cfgNegCarry dataUp = run { cfgNegCarry with backwardation_rate := 0 } dataUp :=
  ⟨by decide, c10_negative_carry_neutral cfgNegCarry dataUp (by decide)⟩

lemma step_scale (c : Config) (hfut : c.futures_mode = true) (hrate : c.backwardation_rate = 0)
    (hfee : c.futures_fee = 0) (hfr : c.fee_rate = 0) (htax : c.tax_rate = 0)
    (s : SimState) (row : PriceRow) :
    step { c with futures_mode := false } (scaleSt c.contract_multiplier s)
        (scaleRow c.contract_multiplier row)
      = (scaleSt c.contract_multiplier (step c s row).1,
         scaleRec c.contract_multiplier (step c s row).2) := by
  have hd : ¬ c.daily_backwardation > 0 := by
    rw [Config.daily_backwardation, hrate]
    norm_num
  have hsr : ∀ d pd, shouldRebalance { c with futures_mode := false } d pd
      = shouldRebalance c d pd := fun _ _ => rfl
  simp [step, scaleSt, scaleRow, scaleRec, scaleReason, calcTradeCost, hfut, hsr,
    if_neg hd, apply_ite (scaleReason c.contract_multiplier),
    Prod.ext_iff, SimState.mk.injEq, StepRec.mk.injEq]
  simp [hfee, hfr, htax]
  ring_nf
  simp only [true_and, and_true]
  split_ifs <;> simp [scaleReason, mul_sub]

lemma runLoop_scale (c : Config) (hfut : c.futures_mode = true) (hrate : c.backwardation_rate = 0)
    (hfee : c.futures_fee = 0) (hfr : c.fee_rate = 0) (htax : c.tax_rate = 0) :
    ∀ (rows : List PriceRow) (s : SimState),
      runLoop { c with futures_mode := false } (scaleSt c.contract_multiplier s)
          (rows.map (scaleRow c.contract_multiplier))
        = (runLoop c s rows).map (scaleRec c.contract_multiplier)
  | [], _ => rfl
  | row :: rest, s => by
    simp only [List.map_cons, runLoop, step_scale c hfut hrate hfee hfr htax s row]
    exact congrArg _ (runLoop_scale c hfut hrate hfee hfr htax rest (step c s row).1)

lemma initSt_scale (c : Config) (hfut : c.futures_mode = true) (first : PriceRow) :
    initSt { c with futures_mode := false } (scaleRow c.contract_multiplier first)
      = scaleSt c.contract_multiplier (initSt c first) := by
  simp [initSt, scaleSt, scaleRow, initVol, hfut, SimState.mk.injEq]
  ring_nf

lemma initRec_scale (c : Config) (hfut : c.futures_mode = true) (first : PriceRow) :
    initRec { c with futures_mode := false } (scaleRow c.contract_multiplier first)
      = scaleRec c.contract_multiplier (initRec c first) := by
  simp [initRec, scaleRec, scaleRow, scaleReason, initVol, hfut, StepRec.mk.injEq]
  ring_nf

/-- C8 (amended).  Zero-carry mode equivalence up to price scaling: with
carry rate 0 and every trading cost zero, a cash-mode run over the price
series scaled by the contract multiplier `m` produces the same result as
the futures-mode run over the original series, except that the recorded
prices (and the price deltas inside trade rationales) carry the factor
`m`.  In particular the positions (contract counts), trades, all three
capital trajectories, and every derived metric coincide, so notional
exposure scales by `m`.  On the same unscaled series the results do not
coincide up to multiplier scaling (see the counterexample): integer
contract truncation and the differing fee schedules break it. -/
theorem c8_zero_cost_scaling (c : Config) (data : List PriceRow)
    (hfut : c.futures_mode = true) (hrate : c.backwardation_rate = 0)
    (hfee : c.futures_fee = 0) (hfr : c.fee_rate = 0) (htax : c.tax_rate = 0) :
    run { c with futures_mode := false } (data.map (scaleRow c.contract_multiplier))
      = (run c data).map (scaleResult c.contract_multiplier) := by
  match data with
  | [] => rfl
  | first :: rest =>
    have hq : ∀ l : List StepRec,
        (l.map (scaleRec c.contract_multiplier)).map (·.bh_rebal_capital)
          = l.map (·.bh_rebal_capital) := by
      intro l
      rw [List.map_map]
      rfl
    simp only [List.map_cons, run]
    rw [initSt_scale c hfut first, initRec_scale c hfut first,
      runLoop_scale c hfut hrate hfee hfr htax rest (initSt c first), hq]
    cases hgl : (List.map (·.bh_rebal_capital) (runLoop c (initSt c first) rest)).getLast? with
    | none => simp [hgl]
    | some lastRebal =>
      simp [hgl, scaleResult, BacktestResult.mk.injEq, List.map_map, List.length_map]
      and_intros <;> first | rfl | (intro a _; rfl)

/-- C8 witness: the scaling equivalence instantiated at a concrete
zero-cost futures configuration and the two-bar series `[107, 108]`. -/
theorem c8_zero_cost_scaling_witness :
    run { cfgFutZero with futures_mode := false }
        (dataC8.map (scaleRow cfgFutZero.contract_multiplier))
      = (run cfgFutZero dataC8).map (scaleResult cfgFutZero.contract_multiplier) :=
  c8_zero_cost_scaling cfgFutZero dataC8 rfl rfl rfl rfl rfl

unseal Rat.add Rat.sub Rat.mul Rat.inv in
/-- C8 counterexample: on the same unscaled series `[107, 108]`, a
futures-mode run (multiplier 10, carry 0) and the otherwise identical
cash-mode run do not coincide up to multiplier scaling: the cash position
4672 is not 10 times the 467 contracts, and the capital trajectories
differ. -/
theorem c8_mode_equivalence_cex :
    ((run cfgFutD dataC8).map (fun r => r.volumes)) = some [467, 465]
    ∧ ((run cfgDefault dataC8).map (fun r => r.volumes)) = some [4672, 4651]
    ∧ ((run cfgFutD dataC8).map (fun r => r.capitals)) = some [1000000, 1004626]
    ∧ ((run cfgDefault dataC8).map (fun r => r.capitals))
        = some [1000000, 10046619641 / 10000]
    ∧ ¬ ((4672 : ℤ) = 10 * 467)
    ∧ ¬ ((1004626 : ℚ) = 10046619641 / 10000) := by
  decide
